import Mathlib

/-!
Verification of the neural-network classifier core
(`tupa/classifiers/nn/neural_network.py`).

The Python class `NeuralNetwork` is shallowly embedded below:
* feature-parameter specs (`FeatureInformation` records handed in by the
  feature enumerator) become the structure `FeatureParam`;
* the ordered parameter table keyed by suffixes and `("W", i, axis)` /
  `("b", i, axis)` triples becomes `ParamKey`-keyed association lists for the
  allocation shapes, and a `ParamValues` record for the tensor contents;
* machine floats are modelled as real numbers, configuration scalars that are
  compared for equality (dropout, importance) as rationals;
* fallible code paths (failed assertions, `KeyError`s, the unimplemented
  `index_input` hook raising `ValueError`) return `Except`;
* the mutable object state (`_losses`, `_iteration`, `_value`, the
  computation-graph scope, parameter values mutated by the external
  optimizer) becomes the explicit state record `NNState` threaded through
  the lifecycle functions.

The external autodiff engine (dynet) owns gradient computation and the
optimizer update rule; its effect on parameter values is abstracted as the
`trainer_update` field of the configuration, and the stochastic dropout
primitive as `dropoutF` (both are collaborators the source file explicitly
treats as external).
-/

noncomputable section

namespace NN

/-- Per-feature-type specification handed in by the feature enumerator
(`FeatureInformation`): table size, embedding dimension, kind flags, slot
count `num`, and an optional initial tensor for the lookup table. -/
structure FeatureParam where
  size : Nat
  dim : Nat
  numeric : Bool
  indexed : Bool
  updated : Bool
  num : Nat
  init : Option (List (List ℝ)) := none

/-- Keys of the ordered parameter table `self._params`: feature-type
suffixes for lookup tables, and the triples `("W", i, axis)`,
`("b", i, axis)` for MLP weights and biases. -/
inductive ParamKey where
  | suffix (s : String)
  | W (i : Nat) (axis : Nat)
  | b (i : Nat) (axis : Nat)
deriving DecidableEq

/-- Raw values of one feature type inside a feature dictionary: a dense
numeric vector for numeric features, or a list of integer ids for lookup
and indexed features. -/
inductive FeatValues where
  | floats (xs : List ℝ)
  | ids (xs : List Int)

/-- A feature dictionary: feature-type suffix to raw values.  Python hands
in a `dict`; the embedding keeps the (insertion-ordered) association list
and sorts it, exactly as `sorted(features.items())` does. -/
abbrev Features := List (String × FeatValues)

/-- Modelled from the spec: `MISSING_VALUE`, the reserved missing-value
marker of the feature-enumeration layer (`features.feature_params`, not
under `src/`); a single sentinel distinct from every valid (non-negative)
id. -/
def MISSING_VALUE : Int := -1

/-- Lexicographic comparison of character lists by code point — the string
order Python's `sorted` uses on `dict` keys. -/
def charListLE : List Char → List Char → Bool
  | [], _ => true
  | _ :: _, [] => false
  | c :: cs, d :: ds =>
    if c.toNat < d.toNat then true
    else if d.toNat < c.toNat then false
    else charListLE cs ds

/-- Lexicographic string comparison by code point. -/
def strLE (a b : String) : Bool := charListLE a.data b.data

/-- Key-ordering relation used by Python's `sorted` over `dict.items()`:
lexicographic comparison of the suffix strings. -/
def keyLE {β : Type} (a b : String × β) : Prop := strLE a.1 b.1 = true

instance {β : Type} : DecidableRel (α := String × β) keyLE := fun a b =>
  inferInstanceAs (Decidable (strLE a.1 b.1 = true))

/-- `sorted(d.items())`: iterate the dictionary entries in lexicographic
suffix order (stable insertion sort; dictionary keys are unique so
stability is irrelevant). -/
def sortBySuffix {β : Type} (l : List (String × β)) : List (String × β) :=
  List.insertionSort keyLE l

/-- `self._input_params[suffix]` as an association-list lookup. -/
def lookup_param (ps : List (String × FeatureParam)) (s : String) : Option FeatureParam :=
  (ps.find? fun q => q.1 == s).map Prod.snd

/-- The accumulator loop of `init_input_params`: folds over the feature
parameters in sorted suffix order and accumulates
`(input_dim-without-indexed, indexed_dim, indexed_num)` exactly as the
source does (`_input_dim += num * dim` for non-indexed features with
nonzero `dim`, `_indexed_dim += dim` and `_indexed_num = max(..., num)` for
indexed ones). -/
def init_input_dims (ps : List (String × FeatureParam)) : Nat × Nat × Nat :=
  (sortBySuffix ps).foldl
    (fun acc q =>
      if q.2.dim ≠ 0 then
        if q.2.indexed then (acc.1, acc.2.1 + q.2.dim, max acc.2.2 q.2.num)
        else (acc.1 + q.2.num * q.2.dim, acc.2.1, acc.2.2)
      else acc)
    (0, 0, 0)

/-- `self._indexed_dim`: summed dimension of indexed feature types. -/
def indexed_dim (ps : List (String × FeatureParam)) : Nat := (init_input_dims ps).2.1

/-- `self._indexed_num`: the declared total indexed-slot count. -/
def indexed_num (ps : List (String × FeatureParam)) : Nat := (init_input_dims ps).2.2

/-- `init_indexed_input_params`: total output dimension of indexed
features, `self._indexed_dim * self._indexed_num`. -/
def init_indexed_input_params (ps : List (String × FeatureParam)) : Nat :=
  indexed_dim ps * indexed_num ps

/-- `self._input_dim` after `init_input_params` has run: non-indexed width
plus the indexed width returned by `init_indexed_input_params`. -/
def input_dim (ps : List (String × FeatureParam)) : Nat :=
  (init_input_dims ps).1 + init_indexed_input_params ps

/-- Following the claim's words (not the source): "the maximum declared
`num` over indexed feature types" — the fold-maximum of `num` over every
feature type whose `indexed` flag is set, with no condition on `dim`.  To
be compared against `indexed_num`. -/
def indexed_slot_count_claim (ps : List (String × FeatureParam)) : Nat :=
  (ps.filter fun q => q.2.indexed).foldl (fun m q => max m q.2.num) 0

/-- The `in_dim` list of `init_mlp_params`:
`[input_dim] + (layers - 1) * [layer_dim] + [output_dim]`
(Python's `(-1) * [x] == []` matches Lean's truncated `Nat` subtraction). -/
def mlp_in_dims (inputDim layers layerDim outputDim : Nat) : List Nat :=
  [inputDim] ++ List.replicate (layers - 1) layerDim ++ [outputDim]

/-- The `out_dim` list of `init_mlp_params`:
`(layers - 1) * [layer_dim] + [output_dim, max_num_labels[axis]]`. -/
def mlp_out_dims (layers layerDim outputDim maxLabels : Nat) : List Nat :=
  List.replicate (layers - 1) layerDim ++ [outputDim, maxLabels]

/-- The inner loop of `init_mlp_params` for one axis: for
`i in range(layers + 1)` allocate `("W", i, axis)` with shape
`(out_dim[i], in_dim[i])` and `("b", i, axis)` with shape `out_dim[i]`
(recorded as `(out_dim[i], 1)`). -/
def mlp_axis_params (inputDim layers layerDim outputDim maxLabels axis : Nat) :
    List (ParamKey × Nat × Nat) :=
  (List.range (layers + 1)).flatMap fun i =>
    [(ParamKey.W i axis,
       ((mlp_out_dims layers layerDim outputDim maxLabels).getD i 0,
        (mlp_in_dims inputDim layers layerDim outputDim).getD i 0)),
     (ParamKey.b i axis,
       ((mlp_out_dims layers layerDim outputDim maxLabels).getD i 0, 1))]

/-- `init_mlp_params`: for every axis (one per entry of `num_labels`),
allocate the per-axis affine stack sized against
`max_num_labels[axis]`. -/
def init_mlp_params (inputDim layers layerDim outputDim : Nat)
    (num_labels max_num_labels : List Nat) : List (ParamKey × Nat × Nat) :=
  (List.range num_labels.length).flatMap fun axis =>
    mlp_axis_params inputDim layers layerDim outputDim (max_num_labels.getD axis 0) axis

/-- The suffix keys inserted into `self._params` by `init_input_params`:
non-numeric feature types with nonzero dimension, in sorted suffix
order. -/
def input_param_keys (ps : List (String × FeatureParam)) : List ParamKey :=
  ((sortBySuffix ps).filter fun q => q.2.numeric = false ∧ q.2.dim ≠ 0).map
    fun q => ParamKey.suffix q.1

/-- `list(self._params.keys())` for a freshly built model: the lookup-table
suffixes (insertion order of `init_input_params`) followed by the MLP keys
(insertion order of `init_mlp_params`). -/
def param_keys_of (ps : List (String × FeatureParam))
    (inputDim layers layerDim outputDim : Nat)
    (num_labels max_num_labels : List Nat) : List ParamKey :=
  input_param_keys ps ++
    (init_mlp_params inputDim layers layerDim outputDim num_labels max_num_labels).map Prod.fst

/-- The fatal conditions the input/evaluation path can raise: a `KeyError`
on an unknown feature suffix, a Python-level type error when a feature's
raw values do not fit its declared kind, the `AssertionError` of
`generate_inputs` ("Wrong number of index features"), and the `ValueError`
raised by the unimplemented `index_input` hook ("Input representations not
initialized"). -/
inductive GIError where
  | keyError
  | badValues
  | wrongIndexCount
  | indexUnimplemented
deriving DecidableEq

/-- Values as consumed by `dy.inputVector`: numeric features pass their
floats through, integer ids coerce to floats. -/
def floatsOf : FeatValues → List ℝ
  | .floats xs => xs
  | .ids xs => xs.map fun n => (n : ℝ)

/-- Current values of every tensor owned by the parameter table: the row of
lookup table `suffix` at index `x`, and the weight matrix / bias vector of
MLP layer `i` on `axis`.  Concrete contents come from the random
initializer and subsequent optimizer updates, both owned by the external
engine, so they are carried as opaque-valued functions in the state. -/
structure ParamValues where
  lookup : String → Int → List ℝ
  W : Nat → Nat → List (List ℝ)
  b : Nat → Nat → List ℝ

/-- The loop body of `generate_inputs` over `sorted(features.items())`,
returning the list of yielded sub-vectors together with the buffered
indexed-feature ids (`indices`, order preserved):
* numeric features yield `dy.inputVector(values)` unconditionally;
* non-numeric features with nonzero `dim` either buffer their ids
  (`indexed`) or yield the concatenation of per-id lookup rows, with
  `MISSING_VALUE` mapped to the per-scope zero vector
  `self._empty_values[suffix]` (a zero vector of length `dim`, from
  `zero_input`);
* non-numeric features with `dim == 0` yield nothing. -/
def gather_inputs (ps : List (String × FeatureParam)) (pv : ParamValues) :
    Features → Except GIError (List (List ℝ) × List Int)
  | [] => .ok ([], [])
  | (s, v) :: rest =>
    match lookup_param ps s with
    | none => .error .keyError
    | some p =>
      if p.numeric then
        match gather_inputs ps pv rest with
        | .error e => .error e
        | .ok (outs, idxs) => .ok (floatsOf v :: outs, idxs)
      else if p.dim ≠ 0 then
        match v with
        | .floats _ => .error .badValues
        | .ids xs =>
          match gather_inputs ps pv rest with
          | .error e => .error e
          | .ok (outs, idxs) =>
            if p.indexed then .ok (outs, xs ++ idxs)
            else
              .ok ((xs.map fun x =>
                      if x = MISSING_VALUE then List.replicate p.dim (0 : ℝ)
                      else pv.lookup s x).flatten :: outs, idxs)
      else gather_inputs ps pv rest

/-- `generate_inputs`: iterate the feature types in sorted suffix order,
then — if any ids were buffered — assert that their count equals
`self._indexed_num` (raising the "Wrong number of index features" assertion
otherwise) and hand them to `index_input`, which at this layer always
raises `ValueError` (the hook is unimplemented). -/
def generate_inputs (ps : List (String × FeatureParam)) (pv : ParamValues)
    (features : Features) : Except GIError (List (List ℝ)) :=
  match gather_inputs ps pv (sortBySuffix features) with
  | .error e => .error e
  | .ok (outs, idxs) =>
    if idxs = [] then .ok outs
    else if idxs.length = indexed_num ps then .error .indexUnimplemented
    else .error .wrongIndexCount

/-- The `ACTIVATIONS` table: recognized nonlinearity kinds mapped to their
real semantics (`dy.square`, `dy.cube`, `dy.tanh`, `dy.logistic`,
`dy.rectify`). -/
def ACTIVATIONS : String → Option (ℝ → ℝ)
  | "square" => some fun x => x * x
  | "cube" => some fun x => x * x * x
  | "tanh" => some Real.tanh
  | "sigmoid" => some fun x => 1 / (1 + Real.exp (-x))
  | "relu" => some fun x => max x 0
  | _ => none

/-- One affine transform `W * x + b` over list-encoded rows. -/
def affine (W : List (List ℝ)) (b : List ℝ) (x : List ℝ) : List ℝ :=
  (W.zip b).map fun row => ((row.1.zip x).map fun q => q.1 * q.2).sum + row.2

/-- `dy.log_softmax(x, restrict=list(range(k)))`: every restricted
component `i < k` becomes `x i - log (sum of exp over the restricted
components)`.  Components outside the restriction carry no probability
mass and are never read downstream (`score` truncates to the first `k`
entries and `update` picks a gold label `< k`); the embedding applies the
same shift to them. -/
def log_softmax_restrict (x : List ℝ) (k : Nat) : List ℝ :=
  x.map fun xi => xi - Real.log (((x.take k).map Real.exp).sum)

/-- Construction-time configuration of the classifier: the architecture
hyperparameters read from `Config().args`, the feature-parameter specs, the
fixed per-axis label ceilings, and the two collaborator behaviours the
source delegates to the external engine (stochastic dropout and the
optimizer's parameter update, the latter fed with the scalar loss of the
flushed minibatch). -/
structure NNConfig where
  layers : Nat
  layer_dim : Nat
  output_dim : Nat
  activation_str : String
  init_str : String
  optimizer_str : String
  minibatch_size : Nat
  dropout : ℚ
  input_params : List (String × FeatureParam)
  max_num_labels : List Nat
  dropoutF : List ℝ → List ℝ
  trainer_update : ℝ → ParamValues → ParamValues

/-- Mutable object state of a `NeuralNetwork` instance: current parameter
values, current per-axis label counts, the loss queue `_losses`, the
training-iteration counter `_iteration`, the per-axis score cache
`_value`, whether `init_model` has run (`self.model is None`), the ordered
key list of `self._params`, a generation counter for the live
computation-graph scope (bumped by every `dy.renew_cg` in `init_cg`), and
the number of `update_epoch` calls forwarded to the trainer. -/
structure NNState where
  params : ParamValues
  num_labels : List Nat
  losses : List ℝ
  iteration : Nat
  value : List (Option (List ℝ))
  modelInit : Bool
  param_keys : List ParamKey
  cg : Nat
  epochUpdates : Nat

/-- `init_cg`: `dy.renew_cg()` tears down the live graph scope and creates
a fresh one (modelled by bumping the scope generation counter), then
recomputes `self._empty_values` — whose entries are the zero vectors
`zero_input(dim)`, numerically identical in every scope, so no further
state component changes. -/
def init_cg (st : NNState) : NNState :=
  { st with cg := st.cg + 1 }

/-- `init_model`: create the `dy.Model` and trainer, allocate the input and
MLP parameters (`init_input_params` / `init_mlp_params`; the freshly drawn
random values are the `params` already carried by the state), record the
insertion order of the parameter table, and finish with `init_cg`. -/
def init_model (cfg : NNConfig) (st : NNState) : NNState :=
  init_cg
    { st with
      modelInit := true
      param_keys := param_keys_of cfg.input_params (input_dim cfg.input_params)
        cfg.layers cfg.layer_dim cfg.output_dim st.num_labels cfg.max_num_labels }

/-- `evaluate_mlp`: concatenate the generated input sub-vectors, apply
`layers + 1` rounds of optional training-mode dropout followed by
`activation(W * x + b)`, and finish with the log-softmax restricted to the
axis's current label count. -/
def evaluate_mlp (cfg : NNConfig) (st : NNState) (features : Features)
    (axis : Nat) (train : Bool) : Except GIError (List ℝ) :=
  match generate_inputs cfg.input_params st.params features with
  | .error e => .error e
  | .ok inputs =>
    let act := (ACTIVATIONS cfg.activation_str).getD id
    let y := (List.range (cfg.layers + 1)).foldl
      (fun x i =>
        let x := if train ∧ cfg.dropout ≠ 0 then cfg.dropoutF x else x
        (affine (st.params.W i axis) (st.params.b i axis) x).map act)
      inputs.flatten
    .ok (log_softmax_restrict y (st.num_labels.getD axis 0))

/-- `evaluate`: lazily initialize the model on first use, then return the
cached per-axis expression or evaluate the MLP and cache the result. -/
def evaluate (cfg : NNConfig) (st : NNState) (features : Features)
    (axis : Nat) (train : Bool) : Except GIError (List ℝ × NNState) :=
  let st := if st.modelInit then st else init_model cfg st
  match st.value.getD axis none with
  | some v => .ok (v, st)
  | none =>
    match evaluate_mlp cfg st features axis train with
    | .error e => .error e
    | .ok v => .ok (v, { st with value := st.value.set axis (some v) })

/-- `score`: the base-class hook (outside `src/`) does bookkeeping only;
then, if at least one optimizer step has been applied, evaluate and return
the first `num_labels[axis]` entries of the materialized distribution,
else return `np.zeros(self.num_labels[axis])` without touching the
network. -/
def score (cfg : NNConfig) (st : NNState) (features : Features) (axis : Nat) :
    Except GIError (List ℝ × NNState) :=
  if st.iteration > 0 then
    match evaluate cfg st features axis false with
    | .error e => .error e
    | .ok (v, st) => .ok (v.take (st.num_labels.getD axis 0), st)
  else .ok (List.replicate (st.num_labels.getD axis 0) (0 : ℝ), st)

/-- Python's `int(importance)` (truncation toward zero) followed by
`range(...)`: the number of loop repetitions `update` performs, zero for
every negative argument. -/
def pyRepCount (q : ℚ) : Nat := (q.num.tdiv q.den).toNat

/-- The repetition loop of `update`: each round evaluates the training-mode
MLP for the axis (through the per-axis cache) and appends
`dy.pick(..., true)` — the component of the restricted log-softmax at the
gold label — to the loss queue. -/
def updateLoop (cfg : NNConfig) (features : Features) (axis gold : Nat) :
    Nat → NNState → Except GIError NNState
  | 0, st => .ok st
  | n + 1, st =>
    match evaluate cfg st features axis true with
    | .error e => .error e
    | .ok (v, st) =>
      updateLoop cfg features axis gold n { st with losses := st.losses ++ [v.getD gold 0] }

/-- `update(features, axis, pred, true, importance)`: the base-class hook
does bookkeeping only; `pred` is accepted but unused by the loss; the body
loops `int(importance)` times appending loss terms. -/
def update (cfg : NNConfig) (st : NNState) (features : Features)
    (axis pred gold : Nat) (importance : ℚ) : Except GIError NNState :=
  updateLoop cfg features axis gold (pyRepCount importance) st

/-- `finished_step`: reset the per-axis score cache to all-`None`. -/
def finished_step (st : NNState) (train : Bool) : NNState :=
  { st with value := List.replicate st.num_labels.length none }

/-- The scalar value of `-dy.esum(self._losses)`: the loss expression the
flush path of `finalize` forwards, backwards and hands to the trainer. -/
def flushLoss (st : NNState) : ℝ := -st.losses.sum

/-- `finalize(finished_epoch)`: initialize the model if needed; if the loss
queue is non-empty, build `-esum(losses)`, run forward/backward, apply one
trainer update, reset the graph scope, clear the queue and increment the
iteration counter; finally forward `update_epoch` to the trainer when an
epoch just finished. -/
def finalize (cfg : NNConfig) (st : NNState) (finished_epoch : Bool) : NNState :=
  let st := if st.modelInit then st else init_model cfg st
  let st :=
    if st.losses.isEmpty then st
    else
      let st := { st with params := cfg.trainer_update (flushLoss st) st.params }
      let st := init_cg st
      { st with losses := [], iteration := st.iteration + 1 }
  if finished_epoch then { st with epochUpdates := st.epochUpdates + 1 } else st

/-- `finished_item(train)`: flush when the loss queue has reached the
minibatch size, otherwise reset the graph scope for inference-only items;
always clear the per-step score cache. -/
def finished_item (cfg : NNConfig) (st : NNState) (train : Bool) : NNState :=
  let st :=
    if cfg.minibatch_size ≤ st.losses.length then finalize cfg st false
    else if train = false then init_cg st
    else st
  finished_step st train

/-- `resize`: the per-axis capacity assertion.  Iterates
`enumerate(zip(num_labels, max_num_labels))`, checks every axis (or only
the requested one) and fails at the first checked axis whose current label
count exceeds its maximum. -/
inductive CapacityError where
  | exceeded (axis current maximum : Nat)
deriving DecidableEq

/-- The assertion loop of `resize`, carrying the enumeration index. -/
def resizeCheck (axis : Option Nat) : Nat → List (Nat × Nat) → Except CapacityError Unit
  | _, [] => .ok ()
  | i, (l, m) :: rest =>
    if axis = none ∨ axis = some i then
      if l ≤ m then resizeCheck axis (i + 1) rest
      else .error (.exceeded i l m)
    else resizeCheck axis (i + 1) rest

/-- `resize(axis)`: assert `num_labels[i] <= max_num_labels[i]` for the
checked axes. -/
def resize (num_labels max_num_labels : List Nat) (axis : Option Nat) :
    Except CapacityError Unit :=
  resizeCheck axis 0 (num_labels.zip max_num_labels)

/-- The descriptor dictionary `d` returned by `save_model`. -/
structure Descriptor where
  input_params : List (String × FeatureParam)
  param_keys : List ParamKey
  layers : Nat
  layer_dim : Nat
  activation : String
  init : String
  optimizer : String
  iteration : Nat

/-- Console message printed when `self.model.save(...)` raises
`ValueError`. -/
def failMessage : String := "Failed saving model"

/-- Console message printed when the tensor artifact is written. -/
def doneMessage : String := "Done"

/-- Result of `save_model`: the returned descriptor, the state after the
forced flush, and the console messages. -/
structure SaveResult where
  d : Descriptor
  st : NNState
  messages : List String

/-- `save_model`: force a flush with `self.finalize()`, build the
descriptor from the feature specs, ordered parameter keys, architecture
hyperparameters and iteration counter, then attempt to write the tensor
artifact; a `ValueError` from the engine's save (`writeFails`) is caught
and reported via message, and the descriptor is returned either way.  (The
`os.remove` of a stale artifact and the subclass `save_extra` hook touch
nothing modelled here.) -/
def save_model (cfg : NNConfig) (st : NNState) (writeFails : Bool) : SaveResult :=
  let st := finalize cfg st false
  let d : Descriptor :=
    { input_params := cfg.input_params
      param_keys := st.param_keys
      layers := cfg.layers
      layer_dim := cfg.layer_dim
      activation := cfg.activation_str
      init := cfg.init_str
      optimizer := cfg.optimizer_str
      iteration := st.iteration }
  { d := d, st := st
    messages := if writeFails then [failMessage] else [doneMessage] }

/-- One recorded call to `update`, used to state minibatch-accumulation
properties over a whole sequence of training steps. -/
structure UpdateCall where
  features : Features
  axis : Nat
  pred : Nat
  gold : Nat
  importance : ℚ

/-- Run a sequence of `update` calls in order. -/
def applyUpdates (cfg : NNConfig) : NNState → List UpdateCall → Except GIError NNState
  | st, [] => .ok st
  | st, c :: rest =>
    match update cfg st c.features c.axis c.pred c.gold c.importance with
    | .error e => .error e
    | .ok st' => applyUpdates cfg st' rest

/-- The dimension chain actually realized by `init_mlp_params`: layer `i`
maps `dims[i]` to `dims[i+1]` where
`dims = [input_dim] ++ (layers - 1) * [layer_dim] ++ [output_dim, max]`.
Used to state the corrected shape claim compactly. -/
def mlp_dims (inputDim layers layerDim outputDim maxLabels : Nat) : List Nat :=
  [inputDim] ++ List.replicate (layers - 1) layerDim ++ [outputDim, maxLabels]

/-- The maximum declared `num` over indexed feature types with nonzero
`dim` — the value `indexed_num` actually computes (`dim == 0` feature
types are skipped by the `if param.dim:` guard). -/
def indexed_slot_count_nonzero (ps : List (String × FeatureParam)) : Nat :=
  (ps.filter fun q => (q.2.dim != 0) && q.2.indexed).foldl (fun m q => max m q.2.num) 0

/-- Width contributed to the non-indexed part of the assembled vector by
the feature type at suffix `s`, per the declared spec: `num * dim` for
numeric and for non-indexed lookup features, nothing for indexed or
zero-dimensional lookup features. -/
def nonIdxWidth (ps : List (String × FeatureParam)) (s : String) : Nat :=
  match lookup_param ps s with
  | none => 0
  | some p =>
    if p.numeric = true then p.num * p.dim
    else if p.dim ≠ 0 ∧ p.indexed = false then p.num * p.dim
    else 0

/-- Number of ids a feature entry will buffer into the shared positional
index space. -/
def idxContribution (ps : List (String × FeatureParam)) (sv : String × FeatValues) : Nat :=
  match lookup_param ps sv.1 with
  | none => 0
  | some p =>
    if p.numeric = false ∧ p.dim ≠ 0 ∧ p.indexed = true then
      match sv.2 with
      | .floats _ => 0
      | .ids xs => xs.length
    else 0

/-- Total number of indexed-feature ids a feature dictionary buffers. -/
def indexedIdCount (ps : List (String × FeatureParam)) (f : Features) : Nat :=
  (f.map fun sv => idxContribution ps sv).sum

/-- Well-formedness of the declared feature types: no feature type is both
numeric and indexed (the two kinds are disjoint in the upstream feature
enumerator), and suffixes are distinct (they are `dict` keys). -/
def paramsWF (ps : List (String × FeatureParam)) : Prop :=
  (∀ q ∈ ps, ¬(q.2.numeric = true ∧ q.2.indexed = true)) ∧ (ps.map Prod.fst).Nodup

/-- The upstream feature-enumerator contract for a feature dictionary:
its key set is exactly the declared suffix set; numeric features carry
`num * dim` floats; lookup features carry ids, `num` of them when
non-indexed; and the indexed features together carry exactly the declared
total number of indexed slots. -/
def featuresValid (ps : List (String × FeatureParam)) (f : Features) : Prop :=
  (f.map Prod.fst).Perm (ps.map Prod.fst) ∧
  (∀ sv ∈ f, ∀ p, lookup_param ps sv.1 = some p →
    (p.numeric = true → (floatsOf sv.2).length = p.num * p.dim) ∧
    (p.numeric = false → p.dim ≠ 0 → ∃ xs, sv.2 = FeatValues.ids xs ∧
      (p.indexed = false → xs.length = p.num))) ∧
  indexedIdCount ps f = indexed_num ps

/-- Well-formedness of the lookup tables: every row of the table for a
declared feature type has that feature's embedding dimension (guaranteed
by the `(size, dim)` allocation in `init_input_params`). -/
def lookupWF (ps : List (String × FeatureParam)) (pv : ParamValues) : Prop :=
  ∀ s p, lookup_param ps s = some p → ∀ x : Int, (pv.lookup s x).length = p.dim

/-! ### Concrete fixtures

A minimal concrete classifier used to witness and refute claims: one
numeric feature type `"f"` of two scalar slots, `layers = 0`,
`output_dim = 2`, `relu` activation, no dropout, minibatch size 1, one
axis whose current label count is 2 with a ceiling of 5, and zero-valued
weight and bias tensors (so the MLP output is the uniform distribution
over the two current labels). -/

/-- The numeric feature type of the concrete fixture. -/
def fpNum : FeatureParam :=
  { size := 0, dim := 1, numeric := true, indexed := false, updated := true, num := 2 }

/-- Concrete configuration. -/
def cfgC : NNConfig :=
  { layers := 0
    layer_dim := 4
    output_dim := 2
    activation_str := "relu"
    init_str := "glorot_uniform"
    optimizer_str := "adam"
    minibatch_size := 1
    dropout := 0
    input_params := [("f", fpNum)]
    max_num_labels := [5]
    dropoutF := id
    trainer_update := fun _ p => p }

/-- Concrete initial state (fresh model, zero tensors, empty queue). -/
def stC : NNState :=
  { params :=
      { lookup := fun _ _ => [0]
        W := fun _ _ => [[0, 0], [0, 0]]
        b := fun _ _ => [0, 0] }
    num_labels := [2]
    losses := []
    iteration := 0
    value := [none]
    modelInit := true
    param_keys := []
    cg := 0
    epochUpdates := 0 }

/-- Concrete feature dictionary: both numeric slots are zero. -/
def featsC : Features := [("f", FeatValues.floats [0, 0])]

/-- The value `evaluate_mlp` computes on the fixture: the restricted
log-softmax of `[0, 0]` over both current labels, i.e. log-probability
`-log 2` for each label. -/
def vC : List ℝ := [-Real.log 2, -Real.log 2]

/-- The state after one `update(featsC, 0, 0, 0, 1)` on the fixture: the
axis cache holds the evaluated distribution and the loss queue holds the
picked log-probability of the gold label. -/
def stC1 : NNState :=
  { stC with value := [some vC], losses := [-Real.log 2] }

/-- One unit-importance training call on the fixture. -/
def callC : UpdateCall :=
  { features := featsC, axis := 0, pred := 0, gold := 0, importance := 1 }

/-- Feature types for the indexed-slot-count counterexample: an indexed
feature type with `dim = 0` (structural) declaring 5 slots next to an
indexed feature type with `dim = 1` declaring 2 slots. -/
def psX : List (String × FeatureParam) :=
  [("a", { size := 1, dim := 0, numeric := false, indexed := true, updated := true, num := 5 }),
   ("b", { size := 3, dim := 1, numeric := false, indexed := true, updated := true, num := 2 })]

/-- Parameter values for the counterexample fixture. -/
def pvX : ParamValues :=
  { lookup := fun _ _ => [0], W := fun _ _ => [], b := fun _ _ => [] }

/-- A feature dictionary buffering five ids for feature type `"b"`. -/
def featsX : Features := [("b", FeatValues.ids [0, 1, 2, 3, 4])]

/-- A single indexed feature type declaring two slots of dimension one. -/
def psY : List (String × FeatureParam) :=
  [("b", { size := 3, dim := 1, numeric := false, indexed := true, updated := true, num := 2 })]

/-- A feature dictionary buffering only one id for feature type `"b"`. -/
def featsY : Features := [("b", FeatValues.ids [7])]

/-- Feature types for the input-assembly witness: numeric `"a"` with two
scalar slots and a non-indexed lookup feature `"b"` with one slot of
dimension one. -/
def psW : List (String × FeatureParam) :=
  [("a", { size := 0, dim := 1, numeric := true, indexed := false, updated := true, num := 2 }),
   ("b", { size := 3, dim := 1, numeric := false, indexed := false, updated := true, num := 1 })]

/-- Lookup tables for the input-assembly witness: every row is `[0]`. -/
def pvW : ParamValues :=
  { lookup := fun _ _ => [0], W := fun _ _ => [], b := fun _ _ => [] }

/-- Witness feature dictionary, keys deliberately out of order. -/
def fW : Features := [("b", FeatValues.ids [0]), ("a", FeatValues.floats [1, 2])]

/-- The same dictionary with the opposite insertion order. -/
def fW2 : Features := [("a", FeatValues.floats [1, 2]), ("b", FeatValues.ids [0])]

/-! ### Order lemmas for the suffix sort -/

theorem charListLE_total : ∀ xs ys : List Char, charListLE xs ys = true ∨ charListLE ys xs = true
  | [], _ => Or.inl rfl
  | _ :: _, [] => Or.inr rfl
  | x :: xs, y :: ys => by
    rcases Nat.lt_trichotomy x.toNat y.toNat with h | h | h
    · left
      simp [charListLE, h]
    · have ih := charListLE_total xs ys
      have hx : ¬x.toNat < y.toNat := by omega
      have hy : ¬y.toNat < x.toNat := by omega
      simpa [charListLE, hx, hy, h] using ih
    · right
      simp [charListLE, h]

theorem charListLE_trans : ∀ xs ys zs : List Char, charListLE xs ys = true →
    charListLE ys zs = true → charListLE xs zs = true
  | [], _, _ => by intro _ _; rfl
  | _ :: _, [], _ => by intro h _; simp [charListLE] at h
  | _ :: _, _ :: _, [] => by intro _ h; simp [charListLE] at h
  | x :: xs, y :: ys, z :: zs => by
    intro h1 h2
    simp only [charListLE] at h1 h2 ⊢
    by_cases hyx : y.toNat < x.toNat
    · have hxy : ¬x.toNat < y.toNat := by omega
      simp [hxy, hyx] at h1
    · by_cases hzy : z.toNat < y.toNat
      · have hyz : ¬y.toNat < z.toNat := by omega
        simp [hyz, hzy] at h2
      · by_cases hxz : x.toNat < z.toNat
        · simp [hxz]
        · have hx : ¬x.toNat < y.toNat := by omega
          have hy : ¬y.toNat < z.toNat := by omega
          have hz : ¬z.toNat < x.toNat := by omega
          simp only [if_neg hx, if_neg hyx] at h1
          simp only [if_neg hy, if_neg hzy] at h2
          simp only [if_neg hxz, if_neg hz]
          exact charListLE_trans xs ys zs h1 h2

theorem charListLE_antisymm : ∀ xs ys : List Char, charListLE xs ys = true →
    charListLE ys xs = true → xs = ys
  | [], [] => by intro _ _; rfl
  | [], _ :: _ => by intro _ h; simp [charListLE] at h
  | _ :: _, [] => by intro h _; simp [charListLE] at h
  | x :: xs, y :: ys => by
    intro h1 h2
    simp only [charListLE] at h1 h2
    rcases Nat.lt_trichotomy x.toNat y.toNat with hxy | hxy | hxy
    · have : ¬y.toNat < x.toNat := by omega
      simp [hxy, this] at h2
    · have hx : ¬x.toNat < y.toNat := by omega
      have hy : ¬y.toNat < x.toNat := by omega
      simp only [if_neg hx, if_neg hy] at h1 h2
      have hxy' : x = y := Char.ext (UInt32.ext hxy)
      rw [hxy', charListLE_antisymm xs ys h1 h2]
    · have : ¬x.toNat < y.toNat := by omega
      simp [hxy, this] at h1

theorem strLE_total (a b : String) : strLE a b = true ∨ strLE b a = true :=
  charListLE_total a.data b.data

theorem strLE_trans {a b c : String} (h1 : strLE a b = true) (h2 : strLE b c = true) :
    strLE a c = true :=
  charListLE_trans a.data b.data c.data h1 h2

theorem strLE_antisymm {a b : String} (h1 : strLE a b = true) (h2 : strLE b a = true) :
    a = b :=
  String.ext (charListLE_antisymm a.data b.data h1 h2)

instance {β : Type} : IsTotal (String × β) keyLE := ⟨fun a b => strLE_total a.1 b.1⟩

instance {β : Type} : IsTrans (String × β) keyLE := ⟨fun _ _ _ h h2 => strLE_trans h h2⟩

/-- A sorted association list with duplicate-free keys is determined by
its multiset of entries: two sorted, key-nodup permutations of each other
are equal.  (The key order is only antisymmetric up to key equality, so
this needs the key-nodup hypothesis rather than `eq_of_perm_of_sorted`.) -/
theorem sorted_keyLE_eq {β : Type} :
    ∀ {l₁ l₂ : List (String × β)}, l₁.Perm l₂ → l₁.Sorted keyLE → l₂.Sorted keyLE →
      (l₁.map Prod.fst).Nodup → l₁ = l₂
  | [], l₂ => fun hp _ _ _ => (hp.symm.eq_nil).symm
  | a :: t₁, [] => fun hp _ _ _ => absurd hp.eq_nil (by simp)
  | a :: t₁, b :: t₂ => fun hp hs₁ hs₂ hnd => by
    have hab : a = b := by
      by_contra hne
      have hamem : a ∈ b :: t₂ := hp.subset (List.mem_cons_self a t₁)
      have hbmem : b ∈ a :: t₁ := hp.symm.subset (List.mem_cons_self b t₂)
      have hba : keyLE b a := by
        rcases List.mem_cons.mp hamem with h | h
        · exact absurd h hne
        · exact (List.sorted_cons.mp hs₂).1 a h
      have hab' : keyLE a b := by
        rcases List.mem_cons.mp hbmem with h | h
        · exact absurd h.symm hne
        · exact (List.sorted_cons.mp hs₁).1 b h
      have hkey : a.1 = b.1 := strLE_antisymm hab' hba
      have hbt : b ∈ t₁ := by
        rcases List.mem_cons.mp hbmem with h | h
        · exact absurd h.symm hne
        · exact h
      have : a.1 ∈ t₁.map Prod.fst := by
        rw [hkey]
        exact List.mem_map_of_mem Prod.fst hbt
      exact (List.nodup_cons.mp (by simpa using hnd)).1 this
    subst hab
    have htail : t₁ = t₂ :=
      sorted_keyLE_eq hp.cons_inv (List.sorted_cons.mp hs₁).2 (List.sorted_cons.mp hs₂).2
        (List.nodup_cons.mp (by simpa using hnd)).2
    rw [htail]

/-- Sorting is insertion-order independent: permuted dictionaries with
duplicate-free keys sort to the same list. -/
theorem sortBySuffix_eq_of_perm {β : Type} {f₁ f₂ : List (String × β)}
    (hp : f₁.Perm f₂) (hnd : (f₁.map Prod.fst).Nodup) :
    sortBySuffix f₁ = sortBySuffix f₂ := by
  apply sorted_keyLE_eq
  · exact (List.perm_insertionSort keyLE f₁).trans (hp.trans (List.perm_insertionSort keyLE f₂).symm)
  · exact List.sorted_insertionSort keyLE f₁
  · exact List.sorted_insertionSort keyLE f₂
  · exact (((List.perm_insertionSort keyLE f₁).map Prod.fst).nodup_iff).mpr hnd

/-! ### C7: the capacity assertion of resize -/

theorem resizeCheck_skip (a : Nat) : ∀ (pairs : List (Nat × Nat)) (i : Nat), a < i →
    resizeCheck (some a) i pairs = .ok ()
  | [], _, _ => rfl
  | (l, m) :: rest, i, h => by
    have hne : ¬((some a : Option Nat) = none ∨ (some a : Option Nat) = some i) := by
      simp
      omega
    rw [resizeCheck, if_neg hne]
    exact resizeCheck_skip a rest (i + 1) (by omega)

theorem resizeCheck_at (a : Nat) : ∀ (pairs : List (Nat × Nat)) (i : Nat), i ≤ a →
    a - i < pairs.length →
    resizeCheck (some a) i pairs =
      if (pairs.getD (a - i) (0, 0)).1 ≤ (pairs.getD (a - i) (0, 0)).2 then .ok ()
      else .error (.exceeded a (pairs.getD (a - i) (0, 0)).1 (pairs.getD (a - i) (0, 0)).2)
  | [], _, _, hlen => by simp at hlen
  | (l, m) :: rest, i, hi, hlen => by
    by_cases hia : i = a
    · subst hia
      have hcond : ((some i : Option Nat) = none ∨ (some i : Option Nat) = some i) := Or.inr rfl
      rw [resizeCheck, if_pos hcond]
      simp only [Nat.sub_self, List.getD_cons_zero]
      by_cases hlm : l ≤ m
      · rw [if_pos hlm, if_pos hlm, resizeCheck_skip i rest (i + 1) (Nat.lt_succ_self i)]
      · rw [if_neg hlm, if_neg hlm]
    · have hne : ¬((some a : Option Nat) = none ∨ (some a : Option Nat) = some i) := by
        simp
        omega
      rw [resizeCheck, if_neg hne]
      have h1 : i + 1 ≤ a := by omega
      have h2 : a - (i + 1) < rest.length := by
        simp only [List.length_cons] at hlen
        omega
      rw [resizeCheck_at a rest (i + 1) h1 h2]
      have hidx : a - i = (a - (i + 1)) + 1 := by omega
      rw [hidx, List.getD_cons_succ]

/-- C7: for every valid axis, the capacity check of `resize` succeeds
exactly when the current label count is at most the maximum (equality
included), and raises the capacity-violation error whenever the current
count exceeds the maximum. -/
theorem c7_capacity_check (nl ml : List Nat) (a : Nat) (h1 : a < nl.length)
    (h2 : a < ml.length) :
    (nl.getD a 0 ≤ ml.getD a 0 → resize nl ml (some a) = .ok ()) ∧
    (ml.getD a 0 < nl.getD a 0 →
      resize nl ml (some a) = .error (.exceeded a (nl.getD a 0) (ml.getD a 0))) := by
  have hzl : a < (nl.zip ml).length := by
    rw [List.length_zip]
    omega
  have hrw : resize nl ml (some a) =
      if nl.getD a 0 ≤ ml.getD a 0 then .ok ()
      else .error (.exceeded a (nl.getD a 0) (ml.getD a 0)) := by
    rw [resize, resizeCheck_at a _ 0 (Nat.zero_le a) (by simpa using hzl)]
    have hz : (nl.zip ml).getD (a - 0) (0, 0) = (nl.getD a 0, ml.getD a 0) := by
      rw [Nat.sub_zero, List.getD_eq_getElem _ _ hzl, List.getElem_zip,
        List.getD_eq_getElem _ _ h1, List.getD_eq_getElem _ _ h2]
    rw [hz]
  constructor
  · intro h
    rw [hrw, if_pos h]
  · intro h
    rw [hrw, if_neg (by omega)]

/-- C7 witness: a current count equal to the maximum passes; one above the
maximum raises. -/
theorem c7_witness :
    resize [3] [3] (some 0) = .ok () ∧
    resize [4] [3] (some 0) = .error (.exceeded 0 4 3) :=
  ⟨(c7_capacity_check [3] [3] 0 (by decide) (by decide)).1 (by decide),
   (c7_capacity_check [4] [3] 0 (by decide) (by decide)).2 (by decide)⟩

/-! ### C3: score before the first optimizer step -/

/-- C3: while the iteration counter is zero, `score` returns a zero vector
of the axis's current label count and leaves the state untouched,
regardless of the feature dictionary. -/
theorem c3_score_before_first_flush (cfg : NNConfig) (st : NNState) (features : Features)
    (axis : Nat) (hit : st.iteration = 0) (hax : axis < st.num_labels.length) :
    score cfg st features axis =
      .ok (List.replicate (st.num_labels.getD axis 0) (0 : ℝ), st) := by
  rw [score, if_neg (by omega)]

/-- C3 witness: the concrete fresh model returns the zero vector for both
current labels. -/
theorem c3_witness :
    score cfgC stC featsC 0 = .ok (List.replicate (stC.num_labels.getD 0 0) (0 : ℝ), stC) :=
  c3_score_before_first_flush cfgC stC featsC 0 rfl (by decide)

/-! ### C10: finalize never touches the per-axis score cache -/

/-- C10: `finalize` (with either `finished_epoch` value, flush or no
flush, lazy initialization or not) leaves the per-axis score cache
exactly as it was; the cache is cleared only by `finished_step`, and by
`finished_item` through its trailing `finished_step`. -/
theorem c10_finalize_preserves_cache (cfg : NNConfig) (st : NNState) (fe tr : Bool) :
    (finalize cfg st fe).value = st.value ∧
    (finished_step st tr).value = List.replicate st.num_labels.length none ∧
    (finished_item cfg st tr).value = List.replicate st.num_labels.length none := by
  refine ⟨?_, rfl, ?_⟩
  · rw [finalize]
    split_ifs <;> rfl
  · rw [finished_item]
    split_ifs <;> simp only [finished_step, finalize, init_model, init_cg] <;> split_ifs <;> rfl

/-! ### C9: the save_model descriptor -/

/-- C9: `save_model` flushes first (its resulting state is exactly the
post-`finalize` state and the descriptor reads the post-flush iteration
counter and parameter-key order), the descriptor carries the feature
specs, ordered key list, architecture hyperparameters and iteration
counter, a write failure is reported via message, and the descriptor is
identical whether or not the tensor write fails. -/
theorem c9_save_model_descriptor (cfg : NNConfig) (st : NNState) (writeFails : Bool) :
    (save_model cfg st writeFails).st = finalize cfg st false ∧
    (save_model cfg st writeFails).d =
      { input_params := cfg.input_params
        param_keys := (finalize cfg st false).param_keys
        layers := cfg.layers
        layer_dim := cfg.layer_dim
        activation := cfg.activation_str
        init := cfg.init_str
        optimizer := cfg.optimizer_str
        iteration := (finalize cfg st false).iteration } ∧
    (save_model cfg st writeFails).d = (save_model cfg st false).d ∧
    (save_model cfg st true).messages = [failMessage] :=
  ⟨rfl, rfl, rfl, rfl⟩

/-! ### C1: MLP layer shapes -/

theorem sum_map_two_range : ∀ n : Nat, ((List.range n).map fun _ => 2).sum = 2 * n
  | 0 => rfl
  | n + 1 => by
    rw [List.range_succ, List.map_append, List.sum_append, sum_map_two_range n]
    simp
    omega

theorem mlp_axis_params_length (inputDim layers layerDim outputDim maxL axis : Nat) :
    (mlp_axis_params inputDim layers layerDim outputDim maxL axis).length = 2 * (layers + 1) := by
  rw [mlp_axis_params, List.length_flatMap]
  have hmap : (List.range (layers + 1)).map
      (List.length ∘ fun i =>
        [(ParamKey.W i axis,
           ((mlp_out_dims layers layerDim outputDim maxL).getD i 0,
            (mlp_in_dims inputDim layers layerDim outputDim).getD i 0)),
         (ParamKey.b i axis, ((mlp_out_dims layers layerDim outputDim maxL).getD i 0, 1))]) =
      (List.range (layers + 1)).map fun _ => 2 := by
    apply List.map_congr_left
    intro i _
    rfl
  rw [hmap, sum_map_two_range]

theorem mlp_dims_getD_succ (inputDim layers layerDim outputDim maxL i : Nat) :
    (mlp_dims inputDim layers layerDim outputDim maxL).getD (i + 1) 0 =
      (mlp_out_dims layers layerDim outputDim maxL).getD i 0 := rfl

theorem mlp_dims_getD_of_le (inputDim layers layerDim outputDim maxL i : Nat)
    (hi : i ≤ layers) :
    (mlp_dims inputDim layers layerDim outputDim maxL).getD i 0 =
      (mlp_in_dims inputDim layers layerDim outputDim).getD i 0 := by
  have hlen : i < (mlp_in_dims inputDim layers layerDim outputDim).length := by
    simp only [mlp_in_dims, List.length_append, List.length_replicate, List.length_cons,
      List.length_nil]
    omega
  have hsplit : mlp_dims inputDim layers layerDim outputDim maxL =
      mlp_in_dims inputDim layers layerDim outputDim ++ [maxL] := by
    simp [mlp_dims, mlp_in_dims]
  rw [hsplit, List.getD_append _ _ _ _ hlen]

/-- C1 (amended): `init_mlp_params` allocates, per axis, `layers + 1`
affine layers (a weight and a bias each), and layer `i` maps `dims[i]` to
`dims[i + 1]` along the chain
`dims = [total input width] ++ (layers - 1) * [layer width] ++ [output_dim, max_label_count(axis)]`.
Hence the final layer's output size is `max_label_count(axis)` only when
`layers ≥ 1`; with `layers = 0` the single layer maps the input width
directly to `output_dim`, and with `layers ≥ 2` the last interior layer
maps the layer width to `output_dim` rather than to the layer width. -/
theorem c1_mlp_shapes (inputDim layers layerDim outputDim maxL axis i : Nat)
    (hi : i ≤ layers) :
    (mlp_axis_params inputDim layers layerDim outputDim maxL axis).length = 2 * (layers + 1) ∧
    (ParamKey.W i axis,
       ((mlp_dims inputDim layers layerDim outputDim maxL).getD (i + 1) 0,
        (mlp_dims inputDim layers layerDim outputDim maxL).getD i 0)) ∈
      mlp_axis_params inputDim layers layerDim outputDim maxL axis ∧
    (ParamKey.b i axis, ((mlp_dims inputDim layers layerDim outputDim maxL).getD (i + 1) 0, 1)) ∈
      mlp_axis_params inputDim layers layerDim outputDim maxL axis := by
  refine ⟨mlp_axis_params_length inputDim layers layerDim outputDim maxL axis, ?_, ?_⟩
  · rw [mlp_dims_getD_succ, mlp_dims_getD_of_le inputDim layers layerDim outputDim maxL i hi]
    apply List.mem_flatMap.mpr
    exact ⟨i, List.mem_range.mpr (by omega), by simp⟩
  · rw [mlp_dims_getD_succ]
    apply List.mem_flatMap.mpr
    exact ⟨i, List.mem_range.mpr (by omega), by simp⟩

/-- C1 witness: with `layers = 2, layer_dim = 4, output_dim = 3, max = 5`
the interior layer `i = 1` maps dimension 4 to dimension 3. -/
theorem c1_witness :
    (mlp_axis_params 10 2 4 3 5 0).length = 2 * (2 + 1) ∧
    (ParamKey.W 1 0,
       ((mlp_dims 10 2 4 3 5).getD 2 0, (mlp_dims 10 2 4 3 5).getD 1 0)) ∈
      mlp_axis_params 10 2 4 3 5 0 ∧
    (ParamKey.b 1 0, ((mlp_dims 10 2 4 3 5).getD 2 0, 1)) ∈ mlp_axis_params 10 2 4 3 5 0 :=
  c1_mlp_shapes 10 2 4 3 5 0 1 (by decide)

/-- C1 counterexample: with `layers = 0` and `output_dim = 3` against a
label ceiling of 5, the single allocated affine layer has output size 3 —
the final layer's output size is `output_dim`, not `max_label_count`,
refuting the claim as stated. -/
theorem c1_counterexample :
    init_mlp_params 10 0 4 3 [2] [5] =
      [(ParamKey.W 0 0, (3, 10)), (ParamKey.b 0 0, (3, 1))] ∧ (3 : Nat) ≠ 5 := by
  constructor
  · rfl
  · decide

/-! ### Lifecycle lemmas: evaluate, update, finalize -/

theorem evaluate_ok_proj {cfg : NNConfig} {st : NNState} {f : Features} {ax : Nat} {t : Bool}
    {v : List ℝ} {st' : NNState} (h : evaluate cfg st f ax t = .ok (v, st')) :
    st'.losses = st.losses ∧ st'.iteration = st.iteration ∧
    st'.num_labels = st.num_labels ∧ st'.params = st.params := by
  simp only [evaluate] at h
  by_cases hm : st.modelInit
  · rw [if_pos hm] at h
    cases hv : st.value.getD ax none with
    | some v0 =>
      rw [hv] at h
      simp only [Except.ok.injEq, Prod.mk.injEq] at h
      rw [← h.2]
      exact ⟨rfl, rfl, rfl, rfl⟩
    | none =>
      rw [hv] at h
      cases he : evaluate_mlp cfg st f ax t with
      | error e =>
        rw [he] at h
        cases h
      | ok v1 =>
        rw [he] at h
        simp only [Except.ok.injEq, Prod.mk.injEq] at h
        rw [← h.2]
        exact ⟨rfl, rfl, rfl, rfl⟩
  · rw [if_neg hm] at h
    cases hv : (init_model cfg st).value.getD ax none with
    | some v0 =>
      rw [hv] at h
      simp only [Except.ok.injEq, Prod.mk.injEq] at h
      rw [← h.2]
      exact ⟨rfl, rfl, rfl, rfl⟩
    | none =>
      rw [hv] at h
      cases he : evaluate_mlp cfg (init_model cfg st) f ax t with
      | error e =>
        rw [he] at h
        cases h
      | ok v1 =>
        rw [he] at h
        simp only [Except.ok.injEq, Prod.mk.injEq] at h
        rw [← h.2]
        exact ⟨rfl, rfl, rfl, rfl⟩

theorem updateLoop_ok_spec (cfg : NNConfig) (f : Features) (ax g : Nat) :
    ∀ (n : Nat) (st st' : NNState), updateLoop cfg f ax g n st = .ok st' →
      st'.losses.length = st.losses.length + n ∧ st'.iteration = st.iteration ∧
      st'.num_labels = st.num_labels ∧ st'.params = st.params
  | 0, st, st', h => by
    simp only [updateLoop, Except.ok.injEq] at h
    rw [← h]
    exact ⟨rfl, rfl, rfl, rfl⟩
  | n + 1, st, st', h => by
    rw [updateLoop] at h
    cases he : evaluate cfg st f ax true with
    | error e =>
      rw [he] at h
      cases h
    | ok pr =>
      obtain ⟨v, st1⟩ := pr
      rw [he] at h
      have hp := evaluate_ok_proj he
      have ih := updateLoop_ok_spec cfg f ax g n _ _ h
      refine ⟨?_, ?_, ?_, ?_⟩
      · rw [ih.1]
        simp only [List.length_append, List.length_cons, List.length_nil, hp.1]
        omega
      · rw [ih.2.1, hp.2.1]
      · rw [ih.2.2.1, hp.2.2.1]
      · rw [ih.2.2.2, hp.2.2.2]

theorem updateLoop_cached (cfg : NNConfig) (f : Features) (ax g : Nat) (v : List ℝ) :
    ∀ (n : Nat) (st : NNState), st.modelInit = true → st.value.getD ax none = some v →
      updateLoop cfg f ax g n st =
        .ok { st with losses := st.losses ++ List.replicate n (v.getD g 0) }
  | 0, st, _, _ => by simp [updateLoop]
  | n + 1, st, hm, hc => by
    rw [updateLoop]
    have he : evaluate cfg st f ax true = .ok (v, st) := by
      simp only [evaluate, hm, if_true, hc]
    rw [he]
    show updateLoop cfg f ax g n { st with losses := st.losses ++ [v.getD g 0] } = _
    rw [updateLoop_cached cfg f ax g v n { st with losses := st.losses ++ [v.getD g 0] } hm hc]
    simp [List.append_assoc, List.replicate_succ]

/-- The amended C2 core statement, factored for reuse: an `update` whose
axis cache starts empty appends `int(importance)` copies of the picked
restricted-log-softmax component of the gold label, leaves the iteration
counter alone, and `flushLoss` (the loss `finalize` evaluates) equals the
sum of the negations of the queued terms. -/
theorem update_ok_appends {cfg : NNConfig} {st : NNState} {f : Features} {ax p g : Nat}
    {imp : ℚ} {st' : NNState} {v : List ℝ}
    (hm : st.modelInit = true) (hax : ax < st.value.length)
    (hc : st.value.getD ax none = none)
    (hv : evaluate_mlp cfg st f ax true = .ok v)
    (hu : update cfg st f ax p g imp = .ok st') :
    st'.losses = st.losses ++ List.replicate (pyRepCount imp) (v.getD g 0) ∧
    st'.iteration = st.iteration := by
  rw [update] at hu
  cases hn : pyRepCount imp with
  | zero =>
    rw [hn] at hu
    simp only [updateLoop, Except.ok.injEq] at hu
    rw [← hu]
    exact ⟨by simp, rfl⟩
  | succ n =>
    rw [hn, updateLoop] at hu
    have he : evaluate cfg st f ax true =
        .ok (v, { st with value := st.value.set ax (some v) }) := by
      simp only [evaluate, hm, if_true, hc, hv]
    rw [he] at hu
    have hu' : updateLoop cfg f ax g n
        { st with value := st.value.set ax (some v), losses := st.losses ++ [v.getD g 0] } =
        .ok st' := hu
    have hgd : (st.value.set ax (some v)).getD ax none = some v := by
      simp only [List.getD_eq_getElem?_getD, List.getElem?_set_self hax, Option.getD_some]
    rw [updateLoop_cached cfg f ax g v n
      { st with value := st.value.set ax (some v), losses := st.losses ++ [v.getD g 0] }
      hm hgd] at hu'
    simp only [Except.ok.injEq] at hu'
    rw [← hu']
    constructor
    · show (st.losses ++ [v.getD g 0]) ++ List.replicate n (v.getD g 0) =
        st.losses ++ List.replicate (n + 1) (v.getD g 0)
      rw [List.append_assoc]
      rfl
    · rfl

theorem sum_map_neg_real : ∀ l : List ℝ, (l.map fun x => -x).sum = -l.sum
  | [] => by simp
  | x :: l => by
    simp only [List.map_cons, List.sum_cons, sum_map_neg_real l]
    ring

/-- C2 (amended): each repetition of `update` appends the log-probability
(the picked component of the restricted log-softmax) of the true label to
the loss queue — not its negation — and the loss `finalize` evaluates is
`-(sum of the queue)`, i.e. the negation producing the negative
log-likelihood is applied at flush time, not at accumulation time. -/
theorem c2_update_appends_log_probability (cfg : NNConfig) (st : NNState) (f : Features)
    (ax p g : Nat) (imp : ℚ) (st' : NNState) (v : List ℝ)
    (hm : st.modelInit = true) (hax : ax < st.value.length)
    (hc : st.value.getD ax none = none)
    (hv : evaluate_mlp cfg st f ax true = .ok v)
    (hu : update cfg st f ax p g imp = .ok st') :
    st'.losses = st.losses ++ List.replicate (pyRepCount imp) (v.getD g 0) ∧
    st'.iteration = st.iteration ∧
    flushLoss st' = (st'.losses.map fun l => -l).sum := by
  obtain ⟨h1, h2⟩ := update_ok_appends hm hax hc hv hu
  exact ⟨h1, h2, by rw [flushLoss, sum_map_neg_real]⟩

/-- C5 (amended): a single `update` call appends exactly
`int(importance)` (truncation toward zero) repetitions of the loss term —
equal to `importance` itself exactly when `importance` is a non-negative
integer; fractional parts are discarded, not realized as fractional
weight. -/
theorem c5_update_appends_truncated (cfg : NNConfig) (st : NNState) (f : Features)
    (ax p g : Nat) (imp : ℚ) (st' : NNState)
    (hu : update cfg st f ax p g imp = .ok st') :
    st'.losses.length = st.losses.length + pyRepCount imp ∧
    (∀ n : Nat, imp = (n : ℚ) → st'.losses.length = st.losses.length + n) := by
  rw [update] at hu
  have h := updateLoop_ok_spec cfg f ax g (pyRepCount imp) st st' hu
  refine ⟨h.1, ?_⟩
  intro n hn
  rw [h.1, hn]
  simp [pyRepCount, Int.tdiv_one]

/-! ### Concrete runs on the fixture -/

theorem generate_inputs_concrete :
    generate_inputs cfgC.input_params stC.params featsC = .ok [[0, 0]] := rfl

theorem activations_relu : ACTIVATIONS ("relu") = some fun x => max x 0 := rfl

theorem evaluate_mlp_concrete : evaluate_mlp cfgC stC featsC 0 true = .ok vC := by
  have h : evaluate_mlp cfgC stC featsC 0 true =
      .ok (log_softmax_restrict
        ((affine [[0, 0], [0, 0]] [0, 0] [0, 0]).map fun x : ℝ => max x 0) 2) := rfl
  rw [h]
  have haff : (affine [[0, 0], [0, 0]] [0, 0] [0, 0]).map (fun x : ℝ => max x 0) = [0, 0] := by
    simp [affine]
  rw [haff]
  have hls : log_softmax_restrict [0, 0] 2 = vC := by
    simp only [log_softmax_restrict, vC, List.take_succ_cons, List.take_zero, List.map_cons,
      List.map_nil, List.sum_cons, List.sum_nil, Real.exp_zero]
    norm_num
  rw [hls]

theorem evaluate_concrete :
    evaluate cfgC stC featsC 0 true = .ok (vC, { stC with value := [some vC] }) := by
  have h : evaluate cfgC stC featsC 0 true =
      match evaluate_mlp cfgC stC featsC 0 true with
      | .error e => .error e
      | .ok v => .ok (v, { stC with value := [none].set 0 (some v) }) := rfl
  rw [h, evaluate_mlp_concrete]
  rfl

theorem update_concrete : update cfgC stC featsC 0 0 0 1 = .ok stC1 := by
  have h : update cfgC stC featsC 0 0 0 1 =
      match evaluate cfgC stC featsC 0 true with
      | .error e => .error e
      | .ok (v, st) => .ok { st with losses := st.losses ++ [v.getD 0 0] } := rfl
  rw [h, evaluate_concrete]
  rfl

theorem applyUpdates_concrete : applyUpdates cfgC stC [callC] = .ok stC1 := by
  have h : applyUpdates cfgC stC [callC] =
      match update cfgC stC featsC 0 0 0 1 with
      | .error e => .error e
      | .ok st1 => applyUpdates cfgC st1 [] := rfl
  rw [h, update_concrete]
  rfl

/-! ### C2: sign convention of the queued losses -/

/-- C2 counterexample: on the concrete fixture the true label's
probability is 1/2, so its log-probability is `-log 2` and its negative
log-probability is `log 2`.  The queued term is `-log 2` — the
log-probability, not its negation — and the loss `finalize` evaluates is
`-(queue sum) = log 2 ≠ queue sum`: a further negation is applied at
flush, refuting the claim that the queued sum is already the
negative log-likelihood. -/
theorem c2_counterexample :
    update cfgC stC featsC 0 0 0 1 = .ok stC1 ∧
    stC1.losses = [-Real.log 2] ∧
    ¬(-Real.log 2 = Real.log 2) ∧
    ¬(flushLoss stC1 = stC1.losses.sum) := by
  have hlog : (0 : ℝ) < Real.log 2 := Real.log_pos (by norm_num)
  have hsum : stC1.losses.sum = -Real.log 2 := by simp [stC1, stC]
  have hfl : flushLoss stC1 = Real.log 2 := by
    rw [flushLoss, hsum]
    ring
  refine ⟨update_concrete, rfl, ?_, ?_⟩
  · intro h
    linarith
  · rw [hfl, hsum]
    intro h
    linarith

/-- C2 witness for the amended statement, instantiated on the fixture. -/
theorem c2_witness :
    stC1.losses = stC.losses ++ List.replicate (pyRepCount 1) (vC.getD 0 0) ∧
    stC1.iteration = stC.iteration ∧
    flushLoss stC1 = (stC1.losses.map fun l => -l).sum :=
  c2_update_appends_log_probability cfgC stC featsC 0 0 0 1 stC1 vC rfl (by decide) rfl
    evaluate_mlp_concrete update_concrete

/-! ### C5: importance truncation -/

/-- C5 counterexample: with `importance = 3/2` a single `update` appends
exactly one loss term — `int(3/2) = 1` repetitions — not `3/2` of one:
the fractional part of the importance weight is discarded. -/
theorem c5_counterexample :
    update cfgC stC featsC 0 0 0 (3 / 2) = .ok stC1 ∧
    stC1.losses.length = stC.losses.length + 1 ∧
    ((stC1.losses.length : ℚ) - (stC.losses.length : ℚ) ≠ 3 / 2) := by
  have hrep : pyRepCount (3 / 2) = 1 := by
    norm_num [pyRepCount]
    decide
  have hrep1 : pyRepCount 1 = 1 := rfl
  have h32 : update cfgC stC featsC 0 0 0 (3 / 2) = update cfgC stC featsC 0 0 0 1 := by
    rw [update, update, hrep, hrep1]
  refine ⟨by rw [h32, update_concrete], by decide, ?_⟩
  have h1 : stC1.losses.length = 1 := by decide
  have h0 : stC.losses.length = 0 := by decide
  rw [h1, h0]
  norm_num

/-- C5 witness for the amended statement: a unit-importance update
appends exactly `int(1) = 1` loss term. -/
theorem c5_witness : stC1.losses.length = stC.losses.length + pyRepCount 1 :=
  (c5_update_appends_truncated cfgC stC featsC 0 0 0 1 stC1 update_concrete).1

/-! ### C4: the minibatch trigger -/

theorem finalize_flush (cfg : NNConfig) (st : NNState) (hne : st.losses ≠ []) :
    (finalize cfg st false).iteration = st.iteration + 1 ∧
    (finalize cfg st false).losses = [] := by
  simp only [finalize]
  by_cases hm : st.modelInit <;> simp [hm, hne, init_model, init_cg]

theorem applyUpdates_ok_spec (cfg : NNConfig) :
    ∀ (calls : List UpdateCall) (st st' : NNState), applyUpdates cfg st calls = .ok st' →
      st'.losses.length = st.losses.length + (calls.map fun c => pyRepCount c.importance).sum ∧
      st'.iteration = st.iteration
  | [], st, st', h => by
    simp only [applyUpdates, Except.ok.injEq] at h
    rw [← h]
    exact ⟨by simp, rfl⟩
  | c :: rest, st, st', h => by
    rw [applyUpdates] at h
    cases hu : update cfg st c.features c.axis c.pred c.gold c.importance with
    | error e =>
      rw [hu] at h
      cases h
    | ok st1 =>
      rw [hu] at h
      have hu' : updateLoop cfg c.features c.axis c.gold (pyRepCount c.importance) st =
          .ok st1 := hu
      have h1 := updateLoop_ok_spec cfg c.features c.axis c.gold (pyRepCount c.importance)
        st st1 hu'
      have ih := applyUpdates_ok_spec cfg rest st1 st' h
      constructor
      · rw [ih.1, h1.1]
        simp only [List.map_cons, List.sum_cons]
        omega
      · rw [ih.2, h1.2.1]

/-- C4: starting from an empty loss queue, after `update` calls that
together append exactly `minibatch_size` loss terms (counting
importance-weighted repetitions), one `finished_item(train=True)`
increments the iteration counter by exactly one and leaves the loss queue
empty. -/
theorem c4_minibatch_flush (cfg : NNConfig) (st0 st' : NNState) (calls : List UpdateCall)
    (h0 : st0.losses = []) (hmb : 1 ≤ cfg.minibatch_size)
    (hrun : applyUpdates cfg st0 calls = .ok st')
    (hcount : (calls.map fun c => pyRepCount c.importance).sum = cfg.minibatch_size) :
    (finished_item cfg st' true).iteration = st0.iteration + 1 ∧
    (finished_item cfg st' true).losses = [] := by
  obtain ⟨hlen, hiter⟩ := applyUpdates_ok_spec cfg calls st0 st' hrun
  rw [h0, hcount] at hlen
  simp only [List.length_nil, Nat.zero_add] at hlen
  have hne : st'.losses ≠ [] := by
    intro hcontra
    rw [hcontra] at hlen
    simp only [List.length_nil] at hlen
    omega
  have htrig : cfg.minibatch_size ≤ st'.losses.length := by omega
  obtain ⟨hfiter, hflos⟩ := finalize_flush cfg st' hne
  simp only [finished_item, if_pos htrig]
  have hstep1 : (finished_step (finalize cfg st' false) true).iteration =
      (finalize cfg st' false).iteration := rfl
  have hstep2 : (finished_step (finalize cfg st' false) true).losses =
      (finalize cfg st' false).losses := rfl
  rw [hstep1, hstep2, hfiter, hflos, hiter]
  exact ⟨rfl, rfl⟩

/-- C4 witness: one unit-importance update on the fixture (minibatch size
one) followed by `finished_item(train=True)` bumps the iteration counter
from 0 to 1 and clears the queue. -/
theorem c4_witness :
    (finished_item cfgC stC1 true).iteration = stC.iteration + 1 ∧
    (finished_item cfgC stC1 true).losses = [] :=
  c4_minibatch_flush cfgC stC stC1 [callC] rfl (by decide) applyUpdates_concrete (by decide)

/-! ### C6: the indexed-slot-count assertion -/

theorem fold_dims_third : ∀ (l : List (String × FeatureParam)) (acc : Nat × Nat × Nat),
    (l.foldl (fun acc q =>
      if q.2.dim ≠ 0 then
        if q.2.indexed then (acc.1, acc.2.1 + q.2.dim, max acc.2.2 q.2.num)
        else (acc.1 + q.2.num * q.2.dim, acc.2.1, acc.2.2)
      else acc) acc).2.2 =
    ((l.filter fun q => (q.2.dim != 0) && q.2.indexed).foldl
      (fun m q => max m q.2.num) acc.2.2)
  | [], _ => rfl
  | q :: l, acc => by
    rw [List.foldl_cons, List.filter_cons]
    by_cases hd : q.2.dim ≠ 0
    · by_cases hi : q.2.indexed
      · have hp : (q.2.dim != 0 && q.2.indexed) = true := by
          simp [hd, hi]
        rw [if_pos hp, List.foldl_cons, if_pos hd, if_pos hi]
        exact fold_dims_third l _
      · have hp : ¬((q.2.dim != 0 && q.2.indexed) = true) := by
          simp [hi]
        rw [if_neg hp, if_pos hd, if_neg hi]
        exact fold_dims_third l _
    · have hd0 : q.2.dim = 0 := by omega
      have hp : ¬((q.2.dim != 0 && q.2.indexed) = true) := by
        simp [hd0]
      rw [if_neg hp, if_neg hd]
      exact fold_dims_third l _

instance : RightCommutative fun (m : Nat) (q : String × FeatureParam) => max m q.2.num :=
  ⟨fun b a1 a2 => Nat.max_right_comm b a1.2.num a2.2.num⟩

theorem indexed_num_eq_max_nonzero (ps : List (String × FeatureParam)) :
    indexed_num ps = indexed_slot_count_nonzero ps := by
  rw [indexed_num, init_input_dims, fold_dims_third, indexed_slot_count_nonzero]
  exact @List.Perm.foldl_eq _ _ (fun m q => max m q.2.num) _ _ _
    ((List.perm_insertionSort keyLE ps).filter fun q => (q.2.dim != 0) && q.2.indexed) 0

/-- C6 (amended): whenever ids were buffered across the indexed feature
types and their count differs from the declared total indexed-slot count,
input assembly raises the fatal count-mismatch assertion; and that
declared total equals the maximum declared `num` over indexed feature
types **with nonzero dim** (a `dim == 0` indexed feature type is skipped
by the `if param.dim:` guard), not their sum. -/
theorem c6_wrong_index_count (ps : List (String × FeatureParam)) (pv : ParamValues)
    (feats : Features) (outs : List (List ℝ)) (idxs : List Int)
    (hg : gather_inputs ps pv (sortBySuffix feats) = .ok (outs, idxs))
    (hne : idxs ≠ []) (hcnt : idxs.length ≠ indexed_num ps) :
    generate_inputs ps pv feats = .error .wrongIndexCount ∧
    indexed_num ps = indexed_slot_count_nonzero ps := by
  refine ⟨?_, indexed_num_eq_max_nonzero ps⟩
  simp only [generate_inputs, hg]
  rw [if_neg hne, if_neg hcnt]

/-- C6 witness: one indexed feature type declaring two slots, supplied
with a single id: assembly raises the count-mismatch error. -/
theorem c6_witness :
    generate_inputs psY pvX featsY = .error GIError.wrongIndexCount ∧
    indexed_num psY = indexed_slot_count_nonzero psY :=
  c6_wrong_index_count psY pvX featsY [] [7] rfl (by decide) (by decide)

/-- C6 counterexample: with an indexed feature type of `dim = 0` declaring
5 slots next to an indexed feature type of `dim = 1` declaring 2, the
claim's slot count ("maximum declared num over indexed feature types") is
5, yet a dictionary buffering exactly 5 ids still hits the fatal
count-mismatch error, because the code's declared total skips `dim == 0`
feature types and equals 2. -/
theorem c6_counterexample :
    gather_inputs psX pvX (sortBySuffix featsX) = .ok ([], [0, 1, 2, 3, 4]) ∧
    indexed_slot_count_claim psX = 5 ∧
    indexed_num psX = 2 ∧
    generate_inputs psX pvX featsX = .error GIError.wrongIndexCount := by
  exact ⟨rfl, by decide, by decide, rfl⟩

/-! ### C8: assembled input width and insertion-order independence -/

theorem map_flatten_length (d : Nat) (gfun : Int → List ℝ) (hg : ∀ x, (gfun x).length = d) :
    ∀ xs : List Int, ((xs.map gfun).flatten).length = xs.length * d
  | [] => by simp
  | x :: xs => by
    simp only [List.map_cons, List.flatten_cons, List.length_append, List.length_cons, hg x,
      map_flatten_length d gfun hg xs]
    ring

theorem lookup_param_of_mem : ∀ {ps : List (String × FeatureParam)},
    (ps.map Prod.fst).Nodup → ∀ {q : String × FeatureParam}, q ∈ ps →
      lookup_param ps q.1 = some q.2
  | [], _, _, hq => absurd hq (List.not_mem_nil _)
  | a :: t, hnd, q, hq => by
    rcases List.mem_cons.mp hq with rfl | hqt
    · rw [lookup_param, List.find?_cons_of_pos]
      · rfl
      · simp
    · have hne : ¬(a.1 == q.1) = true := by
        simp only [beq_iff_eq]
        intro hcon
        have hmem : q.1 ∈ t.map Prod.fst := List.mem_map_of_mem Prod.fst hqt
        rw [← hcon] at hmem
        exact (List.nodup_cons.mp (by simpa using hnd)).1 hmem
      rw [lookup_param, @List.find?_cons_of_neg _ (fun r => r.1 == q.1) a t hne]
      exact lookup_param_of_mem (List.nodup_cons.mp (by simpa using hnd)).2 hqt

theorem fold_dims_first : ∀ (l : List (String × FeatureParam)) (acc : Nat × Nat × Nat),
    (l.foldl (fun acc q =>
      if q.2.dim ≠ 0 then
        if q.2.indexed then (acc.1, acc.2.1 + q.2.dim, max acc.2.2 q.2.num)
        else (acc.1 + q.2.num * q.2.dim, acc.2.1, acc.2.2)
      else acc) acc).1 =
    acc.1 + (l.map fun q =>
      if q.2.dim ≠ 0 ∧ q.2.indexed = false then q.2.num * q.2.dim else 0).sum
  | [], acc => by simp
  | q :: l, acc => by
    rw [List.foldl_cons, List.map_cons, List.sum_cons]
    by_cases hd : q.2.dim ≠ 0
    · by_cases hi : q.2.indexed
      · have hcond : ¬(q.2.dim ≠ 0 ∧ q.2.indexed = false) := by simp [hi]
        rw [if_pos hd, if_pos hi, if_neg hcond, fold_dims_first l _]
        dsimp only
        omega
      · have hif : q.2.indexed = false := by
          cases hpe : q.2.indexed
          · rfl
          · exact absurd hpe hi
        have hcond : q.2.dim ≠ 0 ∧ q.2.indexed = false := ⟨hd, hif⟩
        rw [if_pos hd, if_neg hi, if_pos hcond, fold_dims_first l _]
        dsimp only
        omega
    · have hcond : ¬(q.2.dim ≠ 0 ∧ q.2.indexed = false) := by
        intro hcon
        exact hd hcon.1
      rw [if_neg hd, if_neg hcond, fold_dims_first l _]
      omega

theorem init_input_dims_first_eq (ps : List (String × FeatureParam)) (hwf : paramsWF ps) :
    (init_input_dims ps).1 = (ps.map fun q => nonIdxWidth ps q.1).sum := by
  rw [init_input_dims, fold_dims_first]
  dsimp only
  rw [Nat.zero_add]
  have hperm : ((sortBySuffix ps).map fun q =>
      if q.2.dim ≠ 0 ∧ q.2.indexed = false then q.2.num * q.2.dim else 0).sum =
      (ps.map fun q =>
        if q.2.dim ≠ 0 ∧ q.2.indexed = false then q.2.num * q.2.dim else 0).sum :=
    ((List.perm_insertionSort keyLE ps).map _).sum_eq
  rw [hperm]
  have hpt : ∀ q ∈ ps, (if q.2.dim ≠ 0 ∧ q.2.indexed = false then q.2.num * q.2.dim else 0) =
      nonIdxWidth ps q.1 := by
    intro q hq
    have hlpq := lookup_param_of_mem hwf.2 hq
    by_cases hn : q.2.numeric = true
    · have hni : q.2.indexed = false := by
        cases hpe : q.2.indexed
        · rfl
        · exact absurd ⟨hn, hpe⟩ (hwf.1 q hq)
      by_cases hd : q.2.dim = 0
      · simp [nonIdxWidth, hlpq, hn, hni, hd]
      · simp [nonIdxWidth, hlpq, hn, hni, hd]
    · have hn' : q.2.numeric = false := by
        cases hpe : q.2.numeric
        · rfl
        · exact absurd hpe hn
      simp [nonIdxWidth, hlpq, hn']
  rw [List.map_congr_left hpt]

theorem gather_ok_lengths (ps : List (String × FeatureParam)) (pv : ParamValues)
    (hlk : lookupWF ps pv) :
    ∀ (l : Features),
      (∀ sv ∈ l, ∀ p, lookup_param ps sv.1 = some p →
        (p.numeric = true → (floatsOf sv.2).length = p.num * p.dim) ∧
        (p.numeric = false → p.dim ≠ 0 → ∃ xs, sv.2 = FeatValues.ids xs ∧
          (p.indexed = false → xs.length = p.num))) →
      ∀ outs idxs, gather_inputs ps pv l = .ok (outs, idxs) →
        outs.flatten.length = (l.map fun sv => nonIdxWidth ps sv.1).sum ∧
        idxs.length = (l.map fun sv => idxContribution ps sv).sum
  | [], _, outs, idxs, h => by
    simp only [gather_inputs, Except.ok.injEq, Prod.mk.injEq] at h
    rw [← h.1, ← h.2]
    simp
  | ⟨s, v⟩ :: rest, hval, outs, idxs, h => by
    have hrest : ∀ sv ∈ rest, ∀ p, lookup_param ps sv.1 = some p →
        (p.numeric = true → (floatsOf sv.2).length = p.num * p.dim) ∧
        (p.numeric = false → p.dim ≠ 0 → ∃ xs, sv.2 = FeatValues.ids xs ∧
          (p.indexed = false → xs.length = p.num)) :=
      fun sv hsv => hval sv (List.mem_cons_of_mem _ hsv)
    simp only [gather_inputs] at h
    cases hlp : lookup_param ps s with
    | none =>
      rw [hlp] at h
      cases h
    | some p =>
      rw [hlp] at h
      dsimp only at h
      have hvsv := hval ⟨s, v⟩ (List.mem_cons_self _ _) p hlp
      by_cases hnum : p.numeric = true
      · rw [if_pos hnum] at h
        cases hg : gather_inputs ps pv rest with
        | error e =>
          rw [hg] at h
          cases h
        | ok pr =>
          obtain ⟨outs', idxs'⟩ := pr
          rw [hg] at h
          simp only [Except.ok.injEq, Prod.mk.injEq] at h
          have ih := gather_ok_lengths ps pv hlk rest hrest outs' idxs' hg
          rw [← h.1, ← h.2]
          constructor
          · simp only [List.flatten_cons, List.length_append, List.map_cons, List.sum_cons]
            rw [ih.1, hvsv.1 hnum]
            have hwid : nonIdxWidth ps s = p.num * p.dim := by
              simp [nonIdxWidth, hlp, hnum]
            rw [hwid]
          · simp only [List.map_cons, List.sum_cons]
            rw [ih.2]
            have hctr : idxContribution ps ⟨s, v⟩ = 0 := by
              simp [idxContribution, hlp, hnum]
            rw [hctr]
            omega
      · have hnum' : p.numeric = false := by
          cases hpe : p.numeric
          · rfl
          · exact absurd hpe hnum
        rw [if_neg hnum] at h
        by_cases hdim : p.dim ≠ 0
        · rw [if_pos hdim] at h
          cases v with
          | floats ys =>
            dsimp only at h
            cases h
          | ids xs =>
            dsimp only at h
            cases hg : gather_inputs ps pv rest with
            | error e =>
              rw [hg] at h
              cases h
            | ok pr =>
              obtain ⟨outs', idxs'⟩ := pr
              rw [hg] at h
              dsimp only at h
              have ih := gather_ok_lengths ps pv hlk rest hrest outs' idxs' hg
              by_cases hidx : p.indexed
              · rw [if_pos hidx] at h
                simp only [Except.ok.injEq, Prod.mk.injEq] at h
                rw [← h.1, ← h.2]
                constructor
                · simp only [List.map_cons, List.sum_cons]
                  rw [ih.1]
                  have hwid : nonIdxWidth ps s = 0 := by
                    simp [nonIdxWidth, hlp, hnum', hidx]
                  rw [hwid]
                  omega
                · simp only [List.map_cons, List.sum_cons, List.length_append]
                  rw [ih.2]
                  have hctr : idxContribution ps ⟨s, FeatValues.ids xs⟩ = xs.length := by
                    simp [idxContribution, hlp, hnum', hdim, hidx]
                  rw [hctr]
              · have hidx' : p.indexed = false := by
                  cases hpe : p.indexed
                  · rfl
                  · exact absurd hpe hidx
                rw [if_neg hidx] at h
                simp only [Except.ok.injEq, Prod.mk.injEq] at h
                obtain ⟨xs0, hxs0, hlen0⟩ := hvsv.2 hnum' hdim
                have hxs : xs0 = xs := by
                  injection hxs0.symm
                rw [hxs] at hlen0
                rw [← h.1, ← h.2]
                constructor
                · simp only [List.flatten_cons, List.length_append, List.map_cons, List.sum_cons]
                  rw [ih.1]
                  have hflat : ((xs.map fun x =>
                      if x = MISSING_VALUE then List.replicate p.dim (0 : ℝ)
                      else pv.lookup s x).flatten).length = xs.length * p.dim := by
                    apply map_flatten_length
                    intro x
                    by_cases hx : x = MISSING_VALUE
                    · simp [hx]
                    · simp [hx, hlk s p hlp x]
                  rw [hflat, hlen0 hidx']
                  have hwid : nonIdxWidth ps s = p.num * p.dim := by
                    simp [nonIdxWidth, hlp, hnum', hdim, hidx']
                  rw [hwid]
                · simp only [List.map_cons, List.sum_cons]
                  rw [ih.2]
                  have hctr : idxContribution ps ⟨s, FeatValues.ids xs⟩ = 0 := by
                    simp [idxContribution, hlp, hidx']
                  rw [hctr]
                  omega
        · rw [if_neg hdim] at h
          have hd0 : p.dim = 0 := by omega
          have ih := gather_ok_lengths ps pv hlk rest hrest outs idxs h
          constructor
          · rw [ih.1]
            simp only [List.map_cons, List.sum_cons]
            have hwid : nonIdxWidth ps s = 0 := by
              simp [nonIdxWidth, hlp, hnum', hd0]
            rw [hwid]
            omega
          · rw [ih.2]
            simp only [List.map_cons, List.sum_cons]
            have hctr : idxContribution ps ⟨s, v⟩ = 0 := by
              simp [idxContribution, hlp, hd0]
            rw [hctr]
            omega

/-- C8: for every feature dictionary satisfying the upstream contract
(keys are exactly the declared suffixes, numeric widths and id counts
match their declarations, indexed ids total the declared slot count),
whenever input assembly succeeds the assembled vector's length equals the
architecture's declared total input width (non-indexed plus indexed
width); and the assembled result is identical for any reordering of the
dictionary, because feature types are iterated in lexicographic suffix
order. -/
theorem c8_input_assembly (ps : List (String × FeatureParam)) (pv : ParamValues)
    (f : Features) (hwf : paramsWF ps) (hlk : lookupWF ps pv) (hfv : featuresValid ps f) :
    (∀ outs, generate_inputs ps pv f = .ok outs → outs.flatten.length = input_dim ps) ∧
    (∀ f₂, f.Perm f₂ → generate_inputs ps pv f = generate_inputs ps pv f₂) := by
  obtain ⟨hkeys, hsizes, hidcount⟩ := hfv
  constructor
  · intro outs hok
    rw [generate_inputs] at hok
    cases hg : gather_inputs ps pv (sortBySuffix f) with
    | error e =>
      rw [hg] at hok
      cases hok
    | ok pr =>
      obtain ⟨outs0, idxs⟩ := pr
      rw [hg] at hok
      dsimp only at hok
      by_cases hnil : idxs = []
      · rw [if_pos hnil] at hok
        simp only [Except.ok.injEq] at hok
        have hvs : ∀ sv ∈ sortBySuffix f, ∀ p, lookup_param ps sv.1 = some p →
            (p.numeric = true → (floatsOf sv.2).length = p.num * p.dim) ∧
            (p.numeric = false → p.dim ≠ 0 → ∃ xs, sv.2 = FeatValues.ids xs ∧
              (p.indexed = false → xs.length = p.num)) :=
          fun sv hsv => hsizes sv ((List.perm_insertionSort keyLE f).subset hsv)
        obtain ⟨hlen, hidlen⟩ := gather_ok_lengths ps pv hlk (sortBySuffix f) hvs outs0 idxs hg
        have hidsum : ((sortBySuffix f).map fun sv => idxContribution ps sv).sum = 0 := by
          rw [← hidlen, hnil]
          rfl
        have hnum0 : indexed_num ps = 0 := by
          rw [← hidcount, indexedIdCount,
            ← ((List.perm_insertionSort keyLE f).map fun sv => idxContribution ps sv).sum_eq]
          exact hidsum
        have hstep1 : ((sortBySuffix f).map fun sv => nonIdxWidth ps sv.1).sum =
            (f.map fun sv => nonIdxWidth ps sv.1).sum :=
          ((List.perm_insertionSort keyLE f).map _).sum_eq
        have hstep2 : (f.map fun sv => nonIdxWidth ps sv.1).sum =
            ((f.map Prod.fst).map fun k => nonIdxWidth ps k).sum := by
          rw [List.map_map]
          rfl
        have hstep3 : ((f.map Prod.fst).map fun k => nonIdxWidth ps k).sum =
            ((ps.map Prod.fst).map fun k => nonIdxWidth ps k).sum :=
          (hkeys.map _).sum_eq
        have hstep4 : ((ps.map Prod.fst).map fun k => nonIdxWidth ps k).sum =
            (ps.map fun q => nonIdxWidth ps q.1).sum := by
          rw [List.map_map]
          rfl
        rw [← hok, hlen, hstep1, hstep2, hstep3, hstep4, ← init_input_dims_first_eq ps hwf,
          input_dim, init_indexed_input_params, hnum0, Nat.mul_zero, Nat.add_zero]
      · rw [if_neg hnil] at hok
        by_cases hcnt : idxs.length = indexed_num ps
        · rw [if_pos hcnt] at hok
          cases hok
        · rw [if_neg hcnt] at hok
          cases hok
  · intro f₂ hp
    have hnd : (f.map Prod.fst).Nodup := hkeys.nodup_iff.mpr hwf.2
    rw [generate_inputs, generate_inputs, sortBySuffix_eq_of_perm hp hnd]

theorem psW_wf : paramsWF psW := by
  constructor
  · decide
  · decide

theorem psW_lk : lookupWF psW pvW := by
  intro s p hp x
  rw [lookup_param] at hp
  cases hfind : psW.find? fun q => q.1 == s with
  | none =>
    rw [hfind] at hp
    cases hp
  | some q0 =>
    rw [hfind] at hp
    simp only [Option.map_some', Option.some.injEq] at hp
    have hmem := List.mem_of_find?_eq_some hfind
    have hdim : q0.2.dim = 1 := by
      simp only [psW, List.mem_cons, List.mem_singleton, List.not_mem_nil, or_false] at hmem
      rcases hmem with rfl | rfl <;> rfl
    rw [← hp, hdim]
    rfl

theorem fW_valid : featuresValid psW fW := by
  refine ⟨by decide, ?_, by decide⟩
  intro sv hsv p hp
  simp only [fW, List.mem_cons, List.not_mem_nil, or_false] at hsv
  rcases hsv with rfl | rfl
  · have hb : lookup_param psW ("b") = some
        { size := 3, dim := 1, numeric := false, indexed := false, updated := true, num := 1 } :=
      rfl
    rw [hb] at hp
    simp only [Option.some.injEq] at hp
    rw [← hp]
    constructor
    · intro hcon
      exact Bool.noConfusion hcon
    · intro _ _
      exact ⟨[0], rfl, fun _ => rfl⟩
  · have ha : lookup_param psW ("a") = some
        { size := 0, dim := 1, numeric := true, indexed := false, updated := true, num := 2 } :=
      rfl
    rw [ha] at hp
    simp only [Option.some.injEq] at hp
    rw [← hp]
    constructor
    · intro _
      rfl
    · intro hcon
      exact Bool.noConfusion hcon

/-- C8 witness: on the concrete two-feature configuration the assembled
vector `[1, 2] ++ [0]` has the declared total width 3, and assembly is
identical for the two insertion orders of the dictionary. -/
theorem c8_witness :
    (([[1, 2], [0]] : List (List ℝ)).flatten.length = input_dim psW) ∧
    generate_inputs psW pvW fW = generate_inputs psW pvW fW2 := by
  have h := c8_input_assembly psW pvW fW psW_wf psW_lk fW_valid
  refine ⟨h.1 [[1, 2], [0]] rfl, h.2 fW2 ?_⟩
  show (("b", FeatValues.ids [0]) :: ("a", FeatValues.floats [1, 2]) :: []).Perm
    (("a", FeatValues.floats [1, 2]) :: ("b", FeatValues.ids [0]) :: [])
  exact List.Perm.swap _ _ _

end NN
